import Mathlib

/-!
http_to_nsq: the POST handler, the NSQ log adapter and the shutdown sequence.

A shallow embedding of `main.go`.  The topic of a request is a Go `string` taken
from the raw request path, so it is modelled by its bytes (`List UInt8`), valid
UTF-8 or not; `[]byte` is `List UInt8` as well.  The diagnostic lines of the
broker client and the string literals of `main.go` are modelled by `String`
(their code points as `List Char` inside the `strings` helpers, so these are
taken to be valid UTF-8).  A Go `error` is `Option String` (`none` is `nil`,
`some e` carries the error text).  The logger records the calls of its leveled
methods; whether zap writes an entry at the configured level is outside this
model.  A panic in the handler is not recovered (no recover middleware is
installed) and ends the process.  Collaborators that live outside the repository
(the NSQ producer, the zap logger, the prometheus counter vector, the fiber
request context) are modelled at the interface `main.go` uses.
-/

namespace HttpToNsq

/-! ## Collaborators -/

/-- Go `error`: `none` is `nil`. -/
abbrev error := Option String

/-- Go `[]byte`, and the bytes of a Go `string` that comes from the network. -/
abbrev Bytes := List UInt8

/-- The zap levels named by the `-log` flag (`zap.LevelFlag`). -/
inductive ZapLevel
  | DebugLevel
  | InfoLevel
  | WarnLevel
  | ErrorLevel
  | DPanicLevel
  | PanicLevel
  | FatalLevel
  deriving DecidableEq, Repr

/-- The numeric value zap gives each level (`zapcore.Level` is an `int8`); a
larger value is a more severe level. -/
def ZapLevel.toInt : ZapLevel → Int
  | .DebugLevel => -1
  | .InfoLevel => 0
  | .WarnLevel => 1
  | .ErrorLevel => 2
  | .DPanicLevel => 3
  | .PanicLevel => 4
  | .FatalLevel => 5

/-- The structured fields `main.go` builds: `zap.String(key, val)` and
`zap.Error(err)`. -/
inductive ZapField
  | String (key : String) (val : Bytes)
  | Error (err : String)
  deriving DecidableEq, Repr

/-- One call of a leveled method of `*zap.Logger`: the level of the method, the
message and the structured fields. -/
structure LogEntry where
  level : ZapLevel
  msg : String
  fields : List ZapField
  deriving DecidableEq, Repr

/-- The structured logger seen from `main.go`: the entries handed to it so far,
oldest first. -/
structure Logger where
  entries : List LogEntry
  deriving DecidableEq, Repr

/-- Method `logger.Debug`. -/
def Logger.Debug (l : Logger) (msg : String) (fields : List ZapField) : Logger :=
  ⟨l.entries ++ [⟨.DebugLevel, msg, fields⟩]⟩

/-- Method `logger.Info`. -/
def Logger.Info (l : Logger) (msg : String) (fields : List ZapField) : Logger :=
  ⟨l.entries ++ [⟨.InfoLevel, msg, fields⟩]⟩

/-- Method `logger.Warn`. -/
def Logger.Warn (l : Logger) (msg : String) (fields : List ZapField) : Logger :=
  ⟨l.entries ++ [⟨.WarnLevel, msg, fields⟩]⟩

/-- Method `logger.Error`. -/
def Logger.Error (l : Logger) (msg : String) (fields : List ZapField) : Logger :=
  ⟨l.entries ++ [⟨.ErrorLevel, msg, fields⟩]⟩

namespace utf8

/-- A continuation byte, 0x80 to 0xBF. -/
def continuation (b : UInt8) : Bool := 0x80 ≤ b.toNat && b.toNat ≤ 0xBF

/-- Go's `utf8.ValidString`: the bytes are a sequence of well-formed UTF-8
encodings (no stray or missing continuation byte, no overlong form, no
surrogate, nothing above U+10FFFF). -/
def ValidString : List UInt8 → Bool
  | [] => true
  | b0 :: rest =>
    if b0.toNat < 0x80 then ValidString rest
    else if 0xC2 ≤ b0.toNat && b0.toNat ≤ 0xDF then
      match rest with
      | b1 :: rest => continuation b1 && ValidString rest
      | _ => false
    else if 0xE0 ≤ b0.toNat && b0.toNat ≤ 0xEF then
      match rest with
      | b1 :: b2 :: rest =>
        (if b0.toNat = 0xE0 then 0xA0 ≤ b1.toNat && b1.toNat ≤ 0xBF
          else if b0.toNat = 0xED then 0x80 ≤ b1.toNat && b1.toNat ≤ 0x9F
          else continuation b1) && continuation b2 && ValidString rest
      | _ => false
    else if 0xF0 ≤ b0.toNat && b0.toNat ≤ 0xF4 then
      match rest with
      | b1 :: b2 :: b3 :: rest =>
        (if b0.toNat = 0xF0 then 0x90 ≤ b1.toNat && b1.toNat ≤ 0xBF
          else if b0.toNat = 0xF4 then 0x80 ≤ b1.toNat && b1.toNat ≤ 0x8F
          else continuation b1) && continuation b2 && continuation b3 && ValidString rest
      | _ => false
    else false

end utf8

/-- The counter vector `httpReqs` (`http_requests_total`) with the variable
labels `status` and `topic`: the value of every series.  A series that was never
touched reads 0. -/
structure CounterVec where
  series : String → Bytes → Nat

/-- The state `prometheus.NewCounterVec` returns: every series is 0. -/
def NewCounterVec : CounterVec := ⟨fun _ _ => 0⟩

/-- Method `Inc` on the series with the given label values. -/
def CounterVec.Inc (c : CounterVec) (status : String) (topic : Bytes) : CounterVec :=
  ⟨fun s t => if s = status ∧ t = topic then c.series s t + 1 else c.series s t⟩

/-- The call `httpReqs.WithLabelValues(status, topic).Inc()`.  prometheus checks
that every label value is valid UTF-8, and `WithLabelValues` panics when one is
not: the result is `none` then and nothing is incremented.  The status is one of
the literals "error" and "ok", which are valid. -/
def CounterVec.WithLabelValuesInc (c : CounterVec) (status : String) (topic : Bytes) :
    Option CounterVec :=
  if utf8.ValidString topic then some (c.Inc status topic) else none

/-- One call of `producer.Publish`: its arguments and what it returned. -/
structure PublishCall where
  topic : Bytes
  body : Bytes
  result : error
  deriving DecidableEq, Repr

/-- The HTTP response the handler leaves in the fiber context. -/
structure Response where
  status : Nat
  body : String
  deriving DecidableEq, Repr

def StatusOK : Nat := 200
def StatusBadRequest : Nat := 400
def StatusInternalServerError : Nat := 500

/-- The status texts of fiber's `utils.StatusMessage` for the codes the handler
uses. -/
def StatusMessage (status : Nat) : String :=
  if status = 200 then "OK"
  else if status = 400 then "Bad Request"
  else if status = 500 then "Internal Server Error"
  else ""

/-- The response of a fresh fiber context: status 200 and an empty body. -/
def Response.fresh : Response := ⟨StatusOK, ""⟩

/-- The call `c.SendStatus(status)` on a fresh context: fiber sets the status
code and, the body being empty, writes the status text as the body. -/
def SendStatus (status : Nat) : Response := ⟨status, StatusMessage status⟩

/-! ## The POST /:topic handler -/

/-- What the handler closes over and changes: the counter vector, the logger and
the calls made to `producer.Publish` so far (oldest first). -/
structure World where
  httpReqs : CounterVec
  logger : Logger
  published : List PublishCall

/-- The state right after set-up: all counters 0, nothing logged, nothing
published. -/
def World.init : World := ⟨NewCounterVec, ⟨[]⟩, []⟩

/-- The handler of `app.Post("/:topic", ...)`.  `Publish` is what
`producer.Publish` answers while this request is handled; `topic` is
`c.Params("topic")` and `body` is `c.Body()`.  The result is the state the
handler leaves and the response it sends; the response is `none` when the
handler panicked, and the state is then the one at the panic. -/
def postTopic (Publish : Bytes → Bytes → error) (w : World) (topic : Bytes) (body : Bytes) :
    World × Option Response :=
  if topic = [] then
    match w.httpReqs.WithLabelValuesInc "error" topic with
    | none => (w, none)
    | some c => ({ w with httpReqs := c }, some (SendStatus StatusBadRequest))
  else
    match Publish topic body with
    | some err =>
      match w.httpReqs.WithLabelValuesInc "error" topic with
      | none =>
        ({ w with published := w.published ++ [⟨topic, body, some err⟩] }, none)
      | some c =>
        ({ httpReqs := c
           logger := w.logger.Error "Failed to publish message"
             [.String "topic" topic, .Error err]
           published := w.published ++ [⟨topic, body, some err⟩] },
          some (SendStatus StatusInternalServerError))
    | none =>
      match w.httpReqs.WithLabelValuesInc "ok" topic with
      | none =>
        ({ w with published := w.published ++ [⟨topic, body, none⟩] }, none)
      | some c =>
        ({ httpReqs := c
           logger := w.logger.Info "Published message to topic" [.String "topic" topic]
           published := w.published ++ [⟨topic, body, none⟩] },
          some Response.fresh)

/-- A POST request together with what `producer.Publish` answers while it is
handled. -/
structure Post where
  topic : Bytes
  body : Bytes
  Publish : Bytes → Bytes → error

/-- The state after the handler ran on one request (at the panic, if it
panicked). -/
def handle (w : World) (r : Post) : World := (postTopic r.Publish w r.topic r.body).1

/-- Handling a finite sequence of requests one after another: the final state
and whether the process is still running.  A panic ends the process, and the
requests after it are not handled. -/
def handleAll : World → List Post → World × Bool
  | w, [] => (w, true)
  | w, r :: rs =>
    match (postTopic r.Publish w r.topic r.body).2 with
    | some _ => handleAll (handle w r) rs
    | none => (handle w r, false)

/-- A request for topic `T` whose publish succeeded: the handler called
`producer.Publish` (the topic is not empty) and the call returned `nil`. -/
def publishedOk (T : Bytes) (r : Post) : Bool :=
  r.topic = T && r.topic != [] && (r.Publish r.topic r.body).isNone

/-- A recorded call of `producer.Publish` for topic `T` that returned `nil`. -/
def callOk (T : Bytes) (c : PublishCall) : Bool := c.topic = T && c.result.isNone

/-! ## The NSQ log adapter -/

namespace unicode

/-- Go's `unicode.IsSpace`: in Latin-1 the characters tab, line feed, vertical
tab, form feed, carriage return, space, U+0085 and U+00A0; above Latin-1 the
code points with the White_Space property. -/
def IsSpace (r : Char) : Bool :=
  let n := r.toNat
  if n ≤ 0xFF then
    n = 0x09 || n = 0x0A || n = 0x0B || n = 0x0C || n = 0x0D || n = 0x20 || n = 0x85 || n = 0xA0
  else
    n = 0x1680 || (0x2000 ≤ n && n ≤ 0x200A) || n = 0x2028 || n = 0x2029 || n = 0x202F ||
      n = 0x205F || n = 0x3000

end unicode

namespace strings

/-- The scan of `strings.Fields`: `cur` is the field being read (empty between
fields); a white-space character closes it. -/
def fieldsFrom : List Char → List Char → List (List Char)
  | cur, [] => if cur = [] then [] else [cur]
  | cur, c :: cs =>
    if unicode.IsSpace c then
      if cur = [] then fieldsFrom [] cs else cur :: fieldsFrom [] cs
    else fieldsFrom (cur ++ [c]) cs

/-- Go's `strings.Fields`: the maximal runs of characters that are not white
space, in order; the empty list when the string holds only white space. -/
def Fields (s : List Char) : List (List Char) := fieldsFrom [] s

/-- Go's `strings.Join`. -/
def Join : List (List Char) → List Char → List Char
  | [], _ => []
  | [a], _ => a
  | a :: b :: rest, sep => a ++ sep ++ Join (b :: rest) sep

/-- Go's `strings.TrimLeft`: drops the leading characters that occur in
`cutset`. -/
def TrimLeft (s cutset : List Char) : List Char := s.dropWhile (fun c => cutset.contains c)

end strings

/-- The adapter `nsqZapLogger` handed to `producer.SetLogger`. -/
structure nsqZapLogger where
  logger : Logger
  deriving DecidableEq, Repr

/-- Method `(n *nsqZapLogger) Output(_ int, s string) error`: the logger after
the call and the returned error. -/
def nsqZapLogger.Output (n : nsqZapLogger) (_calldepth : Int) (s : String) :
    nsqZapLogger × error :=
  let parts := strings.Fields s.data
  if parts.length < 2 then
    (n, some ("failed to parse NSQ log line: " ++ s))
  else
    let level := parts.headD []
    let message := strings.Join (parts.drop 1) " ".data
    let message := strings.TrimLeft message "0123456789 ".data
    let logger :=
      if level = "DBG".data then n.logger.Debug (String.mk message) []
      else if level = "INF".data then n.logger.Info (String.mk message) []
      else if level = "WRN".data then n.logger.Warn (String.mk message) []
      else if level = "ERR".data then n.logger.Error (String.mk message) []
      else n.logger.Info (String.mk message) []
    (⟨logger⟩, none)

/-! ### Reading a diagnostic line without `strings.Fields` -/

/-- The count of white-space-separated tokens of a line: the positions where a
character that is not white space follows the start of the line or a white-space
character.  `wasSpace` tells whether the previous position was white space. -/
def tokenStarts : Bool → List Char → Nat
  | _, [] => 0
  | wasSpace, c :: cs =>
    (if wasSpace && !unicode.IsSpace c then 1 else 0) + tokenStarts (unicode.IsSpace c) cs

/-- The number of white-space-separated tokens of a line. -/
def tokenCount (s : String) : Nat := tokenStarts true s.data

/-- The level tag of a line: its first token. -/
def levelTag (s : String) : List Char :=
  (s.data.dropWhile unicode.IsSpace).takeWhile (fun c => !unicode.IsSpace c)

/-- The remainder of a line after its level tag. -/
def afterTag (s : String) : List Char :=
  (s.data.dropWhile unicode.IsSpace).dropWhile (fun c => !unicode.IsSpace c)

/-- A leading run of digits and white space removed. -/
def stripIdPrefix (l : List Char) : List Char :=
  l.dropWhile (fun c => c.isDigit || unicode.IsSpace c)

/-- The words of a text put back together with single spaces. -/
def singleSpaced (l : List Char) : List Char := strings.Join (strings.Fields l) [' ']

/-! ## The broker's verbosity threshold -/

/-- The levels of go-nsq (`nsq.LogLevel`). -/
inductive NsqLogLevel
  | LogLevelDebug
  | LogLevelInfo
  | LogLevelWarning
  | LogLevelError
  deriving DecidableEq, Repr

/-- The `switch *logLevel` of `main`: the level given to `producer.SetLogger`. -/
def nsqLogLevel : ZapLevel → NsqLogLevel
  | .DebugLevel => .LogLevelDebug
  | .InfoLevel => .LogLevelInfo
  | .WarnLevel => .LogLevelWarning
  | .ErrorLevel => .LogLevelError
  | .DPanicLevel => .LogLevelError
  | .PanicLevel => .LogLevelError
  | .FatalLevel => .LogLevelError

/-- The host level a broker level stands for: the level of the same name. -/
def NsqLogLevel.asZap : NsqLogLevel → ZapLevel
  | .LogLevelDebug => .DebugLevel
  | .LogLevelInfo => .InfoLevel
  | .LogLevelWarning => .WarnLevel
  | .LogLevelError => .ErrorLevel

/-- A host level the broker's scheme represents directly. -/
def Representable (h : ZapLevel) : Prop := ∃ b : NsqLogLevel, b.asZap = h

/-- Broker level `b` is the nearest supported level that is at least as severe
as host level `h`. -/
def NearestMoreSevere (h : ZapLevel) (b : NsqLogLevel) : Prop :=
  h.toInt ≤ b.asZap.toInt ∧
    ∀ b2 : NsqLogLevel, h.toInt ≤ b2.asZap.toInt → b.asZap.toInt ≤ b2.asZap.toInt

/-- The distance between a host level and a broker level on zap's scale. -/
def levelDistance (h : ZapLevel) (b : NsqLogLevel) : Nat := (h.toInt - b.asZap.toInt).natAbs

/-! ## The shutdown sequence -/

/-- What `main` does, in order, from the moment it waits on `quit`. -/
inductive Event
  | signalReceived
  | appShutdownReturned (err : error)
  | log (e : LogEntry)
  | osExit (code : Nat)
  | producerStop
  | mainReturned
  deriving DecidableEq, Repr

/-- The end of `main`: `<-quit`, then `app.Shutdown()` returning `shutdownErr`;
on an error `logger.Fatal` (zap writes the entry and calls `os.Exit(1)`, so
deferred calls do not run); otherwise `logger.Info`, and on return the deferred
`producer.Stop()`. -/
def mainShutdown (shutdownErr : error) : List Event :=
  [Event.signalReceived, Event.appShutdownReturned shutdownErr] ++
    match shutdownErr with
    | some err =>
      [Event.log ⟨.FatalLevel, "Server forced to shutdown", [.Error err]⟩, Event.osExit 1]
    | none =>
      [Event.log ⟨.InfoLevel, "Server exiting", []⟩, Event.producerStop, Event.mainReturned]

/-- The states of the shutdown orchestrator. -/
inductive Phase
  | Running
  | Draining
  | Stopped
  deriving DecidableEq, Repr

/-- The state after one more event: the signal starts the drain and the
producer's stop ends it. -/
def Phase.next : Phase → Event → Phase
  | .Running, .signalReceived => .Draining
  | .Draining, .producerStop => .Stopped
  | p, _ => p

/-- The state reached after a sequence of events, starting from Running. -/
def phaseAfter (tr : List Event) : Phase := tr.foldl Phase.next .Running

end HttpToNsq

namespace HttpToNsq

/-! ## Properties of the POST handler -/

theorem series_inc_same (c : CounterVec) (s : String) (t : Bytes) :
    (c.Inc s t).series s t = c.series s t + 1 := by
  simp [CounterVec.Inc]

theorem series_inc_other (c : CounterVec) (s : String) (t : Bytes) (s2 : String) (t2 : Bytes)
    (h : ¬(s2 = s ∧ t2 = t)) : (c.Inc s t).series s2 t2 = c.series s2 t2 := by
  simp [CounterVec.Inc, h]

theorem series_inc_le (c : CounterVec) (s : String) (t : Bytes) (s2 : String) (t2 : Bytes) :
    c.series s2 t2 ≤ (c.Inc s t).series s2 t2 := by
  unfold CounterVec.Inc
  dsimp only
  split <;> omega

theorem postTopic_empty (Publish : Bytes → Bytes → error) (w : World) (B : Bytes) :
    postTopic Publish w [] B =
      ({ w with httpReqs := w.httpReqs.Inc "error" [] }, some (SendStatus StatusBadRequest)) := by
  have hv : utf8.ValidString [] = true := rfl
  simp [postTopic, CounterVec.WithLabelValuesInc, hv]

theorem postTopic_ok_valid (Publish : Bytes → Bytes → error) (w : World) (T B : Bytes)
    (hT : T ≠ []) (hv : utf8.ValidString T = true) (hok : Publish T B = none) :
    postTopic Publish w T B =
      ({ httpReqs := w.httpReqs.Inc "ok" T
         logger := w.logger.Info "Published message to topic" [.String "topic" T]
         published := w.published ++ [⟨T, B, none⟩] }, some Response.fresh) := by
  simp [postTopic, CounterVec.WithLabelValuesInc, hT, hv, hok]

theorem postTopic_ok_invalid (Publish : Bytes → Bytes → error) (w : World) (T B : Bytes)
    (hT : T ≠ []) (hv : utf8.ValidString T = false) (hok : Publish T B = none) :
    postTopic Publish w T B =
      ({ w with published := w.published ++ [⟨T, B, none⟩] }, none) := by
  simp [postTopic, CounterVec.WithLabelValuesInc, hT, hv, hok]

theorem postTopic_err_valid (Publish : Bytes → Bytes → error) (w : World) (T B : Bytes)
    (e : String) (hT : T ≠ []) (hv : utf8.ValidString T = true) (herr : Publish T B = some e) :
    postTopic Publish w T B =
      ({ httpReqs := w.httpReqs.Inc "error" T
         logger := w.logger.Error "Failed to publish message" [.String "topic" T, .Error e]
         published := w.published ++ [⟨T, B, some e⟩] },
        some (SendStatus StatusInternalServerError)) := by
  simp [postTopic, CounterVec.WithLabelValuesInc, hT, hv, herr]

theorem postTopic_err_invalid (Publish : Bytes → Bytes → error) (w : World) (T B : Bytes)
    (e : String) (hT : T ≠ []) (hv : utf8.ValidString T = false)
    (herr : Publish T B = some e) :
    postTopic Publish w T B =
      ({ w with published := w.published ++ [⟨T, B, some e⟩] }, none) := by
  simp [postTopic, CounterVec.WithLabelValuesInc, hT, hv, herr]

/-- C1 as it is written fails: for the topic made of the single byte 0xFF (not
empty, not valid UTF-8) and the body "message", with `producer.Publish`
returning `nil`, the handler calls `Publish` once and then panics in
`WithLabelValues`: no response is sent, so there is no status 200. -/
theorem post_success_invalid_topic :
    ([0xFF] : Bytes) ≠ [] ∧
      (postTopic (fun _ _ => none) World.init [0xFF]
        [109, 101, 115, 115, 97, 103, 101]).1.published =
        [⟨[0xFF], [109, 101, 115, 115, 97, 103, 101], none⟩] ∧
      (postTopic (fun _ _ => none) World.init [0xFF]
        [109, 101, 115, 115, 97, 103, 101]).2 = none := by
  decide

/-- C1, amended: for a non-empty topic `T` that is valid UTF-8 and any body `B`,
when `producer.Publish` succeeds the handler calls it exactly once, with exactly
`T` and `B`, and the response is sent with status 200 (and an empty body). -/
theorem post_success_publishes_once (Publish : Bytes → Bytes → error) (w : World)
    (T : Bytes) (B : Bytes) (hT : T ≠ []) (hv : utf8.ValidString T = true)
    (hok : Publish T B = none) :
    (postTopic Publish w T B).1.published = w.published ++ [⟨T, B, none⟩] ∧
      (postTopic Publish w T B).2 = some ⟨200, ""⟩ := by
  rw [postTopic_ok_valid Publish w T B hT hv hok]
  exact ⟨rfl, rfl⟩

theorem post_success_publishes_once_witness :
    (postTopic (fun _ _ => none) World.init
        [116, 101, 115, 116, 95, 50, 48, 50, 52, 48, 49, 48, 50, 49, 53, 48, 52, 48, 53]
        [109, 101, 115, 115, 97, 103, 101]).1.published =
        World.init.published ++
          [⟨[116, 101, 115, 116, 95, 50, 48, 50, 52, 48, 49, 48, 50, 49, 53, 48, 52, 48, 53],
            [109, 101, 115, 115, 97, 103, 101], none⟩] ∧
      (postTopic (fun _ _ => none) World.init
        [116, 101, 115, 116, 95, 50, 48, 50, 52, 48, 49, 48, 50, 49, 53, 48, 52, 48, 53]
        [109, 101, 115, 115, 97, 103, 101]).2 = some ⟨200, ""⟩ :=
  post_success_publishes_once (fun _ _ => none) World.init
    [116, 101, 115, 116, 95, 50, 48, 50, 52, 48, 49, 48, 50, 49, 53, 48, 52, 48, 53]
    [109, 101, 115, 115, 97, 103, 101] (by decide) (by decide) rfl

/-- C2: when the extracted topic is the empty string the handler answers 400,
makes no call to `producer.Publish`, and records exactly one failure outcome:
the series (error, "") grows by one and every other series keeps its value. -/
theorem post_empty_topic (Publish : Bytes → Bytes → error) (w : World) (T : Bytes)
    (B : Bytes) (hT : T = []) :
    (postTopic Publish w T B).2 = some ⟨400, "Bad Request"⟩ ∧
      (postTopic Publish w T B).1.published = w.published ∧
      (postTopic Publish w T B).1.httpReqs.series "error" [] =
        w.httpReqs.series "error" [] + 1 ∧
      ∀ (s : String) (t : Bytes), ¬(s = "error" ∧ t = []) →
        (postTopic Publish w T B).1.httpReqs.series s t = w.httpReqs.series s t := by
  subst hT
  rw [postTopic_empty]
  refine ⟨rfl, rfl, series_inc_same _ _ _, ?_⟩
  intro s t h
  exact series_inc_other _ _ _ _ _ h

theorem post_empty_topic_witness :
    (postTopic (fun _ _ => none) World.init [] [109, 101]).2 = some ⟨400, "Bad Request"⟩ ∧
      (postTopic (fun _ _ => none) World.init [] [109, 101]).1.published = [] ∧
      (postTopic (fun _ _ => none) World.init [] [109, 101]).1.httpReqs.series "error" [] = 1 :=
  have h := post_empty_topic (fun _ _ => none) World.init [] [109, 101] rfl
  ⟨h.1, h.2.1, h.2.2.1⟩

/-- C3 as it is written fails: for the topic made of the single byte 0xFF (not
empty, not valid UTF-8), with `producer.Publish` returning an error, the handler
panics in `WithLabelValues`: no response is sent, so there is no status 500, and
the series (error, T) is not incremented. -/
theorem post_failure_invalid_topic :
    ([0xFF] : Bytes) ≠ [] ∧
      (postTopic (fun _ _ => some "E_BAD_TOPIC") World.init [0xFF] [1, 2]).2 = none ∧
      (postTopic (fun _ _ => some "E_BAD_TOPIC") World.init [0xFF] [1, 2]).1.httpReqs.series
        "error" [0xFF] = 0 := by
  decide

/-- C3, amended: for a non-empty topic `T` that is valid UTF-8, any body and any
error returned by `producer.Publish`, the handler answers 500 (not 200), the
series (error, T) grows by exactly one, no (ok, _) series changes, and every
series other than (error, T) keeps its value. -/
theorem post_publish_failure (Publish : Bytes → Bytes → error) (w : World) (T : Bytes)
    (B : Bytes) (e : String) (hT : T ≠ []) (hv : utf8.ValidString T = true)
    (herr : Publish T B = some e) :
    (postTopic Publish w T B).2 = some ⟨500, "Internal Server Error"⟩ ∧
      (postTopic Publish w T B).2.map Response.status ≠ some 200 ∧
      (postTopic Publish w T B).1.httpReqs.series "error" T =
        w.httpReqs.series "error" T + 1 ∧
      (∀ t : Bytes,
        (postTopic Publish w T B).1.httpReqs.series "ok" t = w.httpReqs.series "ok" t) ∧
      ∀ (s : String) (t : Bytes), ¬(s = "error" ∧ t = T) →
        (postTopic Publish w T B).1.httpReqs.series s t = w.httpReqs.series s t := by
  rw [postTopic_err_valid Publish w T B e hT hv herr]
  refine ⟨rfl, by simp [SendStatus, StatusInternalServerError], series_inc_same _ _ _, ?_, ?_⟩
  · intro t
    exact series_inc_other _ _ _ _ _ (by simp)
  · intro s t h
    exact series_inc_other _ _ _ _ _ h

theorem post_publish_failure_witness :
    (postTopic (fun _ _ => some "EOF") World.init [101, 118, 101, 110, 116, 115] [1, 2]).2 =
        some ⟨500, "Internal Server Error"⟩ ∧
      (postTopic (fun _ _ => some "EOF") World.init [101, 118, 101, 110, 116, 115]
        [1, 2]).1.httpReqs.series "error" [101, 118, 101, 110, 116, 115] = 1 ∧
      (postTopic (fun _ _ => some "EOF") World.init [101, 118, 101, 110, 116, 115]
        [1, 2]).1.httpReqs.series "ok" [101, 118, 101, 110, 116, 115] = 0 :=
  have h := post_publish_failure (fun _ _ => some "EOF") World.init
    [101, 118, 101, 110, 116, 115] [1, 2] "EOF" (by decide) (by decide) rfl
  ⟨h.1, h.2.2.1, h.2.2.2.1 [101, 118, 101, 110, 116, 115]⟩

/-- C9: the response to a failed publish does not depend on the error: for any
topic, body and two publish errors the handler ends the same way (the same
response, or a panic before any response in both runs); for a non-empty topic
every response sent is status 500 with the fixed status text as body, and it is
sent whenever the topic is valid UTF-8. -/
theorem post_failure_response_independent (P1 P2 : Bytes → Bytes → error) (w1 w2 : World)
    (T : Bytes) (B : Bytes) (e1 e2 : String) (h1 : P1 T B = some e1)
    (h2 : P2 T B = some e2) :
    (postTopic P1 w1 T B).2 = (postTopic P2 w2 T B).2 ∧
      (T ≠ [] → ∀ r : Response, (postTopic P1 w1 T B).2 = some r →
        r = ⟨500, "Internal Server Error"⟩) ∧
      (T ≠ [] → utf8.ValidString T = true →
        (postTopic P1 w1 T B).2 = some ⟨500, "Internal Server Error"⟩) := by
  by_cases hT : T = []
  · subst hT
    simp [postTopic_empty]
  · cases hv : utf8.ValidString T with
    | true =>
      rw [postTopic_err_valid P1 w1 T B e1 hT hv h1, postTopic_err_valid P2 w2 T B e2 hT hv h2]
      refine ⟨rfl, fun _ r hr => ?_, fun _ _ => rfl⟩
      exact (Option.some.inj hr).symm
    | false =>
      rw [postTopic_err_invalid P1 w1 T B e1 hT hv h1,
        postTopic_err_invalid P2 w2 T B e2 hT hv h2]
      refine ⟨rfl, fun _ r hr => ?_, fun _ hc => ?_⟩
      · cases hr
      · cases hc

theorem post_failure_response_independent_witness :
    (postTopic (fun _ _ => some "write tcp: broken pipe") World.init
        [101, 118, 101, 110, 116, 115] [1]).2 =
        (postTopic (fun _ _ => some "E_BAD_TOPIC") World.init
          [101, 118, 101, 110, 116, 115] [1]).2 ∧
      (postTopic (fun _ _ => some "write tcp: broken pipe") World.init
        [101, 118, 101, 110, 116, 115] [1]).2 = some ⟨500, "Internal Server Error"⟩ :=
  have h := post_failure_response_independent (fun _ _ => some "write tcp: broken pipe")
    (fun _ _ => some "E_BAD_TOPIC") World.init World.init [101, 118, 101, 110, 116, 115] [1]
    "write tcp: broken pipe" "E_BAD_TOPIC" rfl rfl
  ⟨h.1, h.2.2 (by decide) (by decide)⟩

/-! ### Counting over a sequence of requests -/

theorem handle_series_ok (w : World) (r : Post) (T : Bytes)
    (hv : utf8.ValidString r.topic = true) :
    (handle w r).httpReqs.series "ok" T =
      w.httpReqs.series "ok" T + (if publishedOk T r then 1 else 0) := by
  unfold handle
  by_cases hT : r.topic = []
  · rw [hT, postTopic_empty]
    simp [publishedOk, hT, CounterVec.Inc]
  · cases hP : r.Publish r.topic r.body with
    | none =>
      rw [postTopic_ok_valid r.Publish w r.topic r.body hT hv hP]
      by_cases hE : r.topic = T
      · subst hE
        simp [publishedOk, hT, hP, CounterVec.Inc]
      · have hE2 : ¬ T = r.topic := fun h => hE h.symm
        simp [publishedOk, hE, hE2, CounterVec.Inc]
    | some e =>
      rw [postTopic_err_valid r.Publish w r.topic r.body e hT hv hP]
      simp [publishedOk, hP, CounterVec.Inc]

theorem handle_published_ok (w : World) (r : Post) (T : Bytes) :
    (handle w r).published.countP (callOk T) =
      w.published.countP (callOk T) + (if publishedOk T r then 1 else 0) := by
  unfold handle
  by_cases hT : r.topic = []
  · rw [hT, postTopic_empty]
    simp [publishedOk, hT]
  · cases hP : r.Publish r.topic r.body with
    | none =>
      have hpub : (postTopic r.Publish w r.topic r.body).1.published =
          w.published ++ [⟨r.topic, r.body, none⟩] := by
        cases hv : utf8.ValidString r.topic with
        | true => rw [postTopic_ok_valid r.Publish w r.topic r.body hT hv hP]
        | false => rw [postTopic_ok_invalid r.Publish w r.topic r.body hT hv hP]
      rw [hpub]
      by_cases hE : r.topic = T
      · subst hE
        simp [publishedOk, hT, hP, callOk, List.countP_append]
      · simp [publishedOk, hE, callOk, List.countP_append]
    | some e =>
      have hpub : (postTopic r.Publish w r.topic r.body).1.published =
          w.published ++ [⟨r.topic, r.body, some e⟩] := by
        cases hv : utf8.ValidString r.topic with
        | true => rw [postTopic_err_valid r.Publish w r.topic r.body e hT hv hP]
        | false => rw [postTopic_err_invalid r.Publish w r.topic r.body e hT hv hP]
      rw [hpub]
      simp [publishedOk, hP, callOk, List.countP_append]

/-- The counters after the handler are the old ones, or the old ones with one
series incremented. -/
theorem handle_httpReqs (w : World) (r : Post) :
    (handle w r).httpReqs = w.httpReqs ∨
      ∃ s : String, (handle w r).httpReqs = w.httpReqs.Inc s r.topic := by
  unfold handle
  by_cases hT : r.topic = []
  · right
    refine ⟨"error", ?_⟩
    rw [hT, postTopic_empty]
  · cases hP : r.Publish r.topic r.body with
    | none =>
      cases hv : utf8.ValidString r.topic with
      | true =>
        right
        exact ⟨"ok", by rw [postTopic_ok_valid r.Publish w r.topic r.body hT hv hP]⟩
      | false =>
        left
        rw [postTopic_ok_invalid r.Publish w r.topic r.body hT hv hP]
    | some e =>
      cases hv : utf8.ValidString r.topic with
      | true =>
        right
        exact ⟨"error", by rw [postTopic_err_valid r.Publish w r.topic r.body e hT hv hP]⟩
      | false =>
        left
        rw [postTopic_err_invalid r.Publish w r.topic r.body e hT hv hP]

theorem handle_series_le (w : World) (r : Post) (s : String) (t : Bytes) :
    w.httpReqs.series s t ≤ (handle w r).httpReqs.series s t := by
  rcases handle_httpReqs w r with h | ⟨s2, h⟩
  · rw [h]
  · rw [h]
    exact series_inc_le _ _ _ _ _

theorem handle_series_other (w : World) (r : Post) (s : String) (T : Bytes)
    (hne : r.topic ≠ T) :
    (handle w r).httpReqs.series s T = w.httpReqs.series s T := by
  rcases handle_httpReqs w r with h | ⟨s2, h⟩
  · rw [h]
  · rw [h]
    exact series_inc_other _ _ _ _ _ (fun hc => hne hc.2.symm)

theorem handle_responds (w : World) (r : Post) (hv : utf8.ValidString r.topic = true) :
    ∃ resp : Response, (postTopic r.Publish w r.topic r.body).2 = some resp := by
  by_cases hT : r.topic = []
  · rw [hT, postTopic_empty]
    exact ⟨_, rfl⟩
  · cases hP : r.Publish r.topic r.body with
    | none =>
      rw [postTopic_ok_valid r.Publish w r.topic r.body hT hv hP]
      exact ⟨_, rfl⟩
    | some e =>
      rw [postTopic_err_valid r.Publish w r.topic r.body e hT hv hP]
      exact ⟨_, rfl⟩

theorem handleAll_cons_valid (w : World) (r : Post) (rs : List Post)
    (hv : utf8.ValidString r.topic = true) :
    handleAll w (r :: rs) = handleAll (handle w r) rs := by
  obtain ⟨resp, h⟩ := handle_responds w r hv
  simp [handleAll, h]

theorem handleAll_running (rs : List Post) (w : World)
    (hv : ∀ r ∈ rs, utf8.ValidString r.topic = true) : (handleAll w rs).2 = true := by
  induction rs generalizing w with
  | nil => rfl
  | cons r rs ih =>
    rw [handleAll_cons_valid w r rs (hv r (by simp))]
    exact ih (handle w r) (fun x hx => hv x (List.mem_cons_of_mem _ hx))

theorem handleAll_series_ok (rs : List Post) (w : World) (T : Bytes)
    (hv : ∀ r ∈ rs, utf8.ValidString r.topic = true) :
    (handleAll w rs).1.httpReqs.series "ok" T =
      w.httpReqs.series "ok" T + rs.countP (publishedOk T) := by
  induction rs generalizing w with
  | nil => simp [handleAll]
  | cons r rs ih =>
    have hr : utf8.ValidString r.topic = true := hv r (by simp)
    rw [handleAll_cons_valid w r rs hr,
      ih (handle w r) (fun x hx => hv x (List.mem_cons_of_mem _ hx)),
      handle_series_ok w r T hr, List.countP_cons]
    omega

theorem handleAll_published_ok (rs : List Post) (w : World) (T : Bytes)
    (hv : ∀ r ∈ rs, utf8.ValidString r.topic = true) :
    (handleAll w rs).1.published.countP (callOk T) =
      w.published.countP (callOk T) + rs.countP (publishedOk T) := by
  induction rs generalizing w with
  | nil => simp [handleAll]
  | cons r rs ih =>
    have hr : utf8.ValidString r.topic = true := hv r (by simp)
    rw [handleAll_cons_valid w r rs hr,
      ih (handle w r) (fun x hx => hv x (List.mem_cons_of_mem _ hx)),
      handle_published_ok w r T, List.countP_cons]
    omega

/-- C4 as it is written fails: one request whose topic is the single byte 0xFF
(not valid UTF-8) and whose publish succeeds: `Publish` was called for that
topic and returned `nil`, but the handler panicked before the increment, so the
series (ok, T) reads 0, not 1, and the process has ended. -/
theorem counter_misses_invalid_topic :
    ((handleAll World.init [⟨[0xFF], [1], fun _ _ => none⟩]).1.published.countP
        (callOk [0xFF]) = 1 ∧
      [(⟨[0xFF], [1], fun _ _ => none⟩ : Post)].countP (publishedOk [0xFF]) = 1) ∧
      (handleAll World.init [⟨[0xFF], [1], fun _ _ => none⟩]).1.httpReqs.series
        "ok" [0xFF] = 0 ∧
      (handleAll World.init [⟨[0xFF], [1], fun _ _ => none⟩]).2 = false := by
  decide

/-- C4, amended: starting from all-zero counters and handling in order any
finite sequence of POST requests whose topics are valid UTF-8, the process keeps
running and the series (ok, T) equals the number of requests for topic `T` whose
publish succeeded (counted in the sequence, and equally as the successful
`Publish` calls for `T` that were made); a request for another topic leaves
(ok, T) and (error, T) as they were, and no request lowers any series. -/
theorem counter_counts_successes (rs : List Post) (T : Bytes)
    (hv : ∀ r ∈ rs, utf8.ValidString r.topic = true) :
    (handleAll World.init rs).2 = true ∧
      (handleAll World.init rs).1.httpReqs.series "ok" T = rs.countP (publishedOk T) ∧
      (handleAll World.init rs).1.httpReqs.series "ok" T =
        (handleAll World.init rs).1.published.countP (callOk T) ∧
      (∀ (w : World) (r : Post), r.topic ≠ T →
        (handle w r).httpReqs.series "ok" T = w.httpReqs.series "ok" T ∧
          (handle w r).httpReqs.series "error" T = w.httpReqs.series "error" T) ∧
      ∀ (w : World) (r : Post) (s : String) (t : Bytes),
        w.httpReqs.series s t ≤ (handle w r).httpReqs.series s t := by
  have h1 : (handleAll World.init rs).1.httpReqs.series "ok" T =
      rs.countP (publishedOk T) := by
    simpa [World.init, NewCounterVec] using handleAll_series_ok rs World.init T hv
  have h2 : (handleAll World.init rs).1.published.countP (callOk T) =
      rs.countP (publishedOk T) := by
    simpa [World.init] using handleAll_published_ok rs World.init T hv
  refine ⟨handleAll_running rs World.init hv, h1, ?_, ?_, ?_⟩
  · rw [h1, h2]
  · exact fun w r h => ⟨handle_series_other w r "ok" T h, handle_series_other w r "error" T h⟩
  · exact fun w r s t => handle_series_le w r s t

theorem counter_counts_successes_witness :
    (handleAll World.init
        [⟨[97], [1], fun _ _ => none⟩, ⟨[98], [2], fun _ _ => none⟩,
          ⟨[97], [3], fun _ _ => some "EOF"⟩, ⟨[97], [4], fun _ _ => none⟩,
          ⟨[], [5], fun _ _ => none⟩]).1.httpReqs.series "ok" [97] = 2 ∧
      (handle World.init ⟨[98], [2], fun _ _ => none⟩).httpReqs.series "ok" [97] = 0 ∧
      (handle World.init ⟨[98], [2], fun _ _ => some "EOF"⟩).httpReqs.series "error" [97] = 0 :=
  ⟨(counter_counts_successes
      [⟨[97], [1], fun _ _ => none⟩, ⟨[98], [2], fun _ _ => none⟩,
        ⟨[97], [3], fun _ _ => some "EOF"⟩, ⟨[97], [4], fun _ _ => none⟩,
        ⟨[], [5], fun _ _ => none⟩] [97] (by decide)).2.1.trans (by decide),
    ((counter_counts_successes [] [97] (by decide)).2.2.2.1 World.init
      ⟨[98], [2], fun _ _ => none⟩ (by decide)).1,
    ((counter_counts_successes [] [97] (by decide)).2.2.2.1 World.init
      ⟨[98], [2], fun _ _ => some "EOF"⟩ (by decide)).2⟩

/-! ## Properties of the log adapter -/

open strings

theorem fieldsFrom_length (s : List Char) (cur : List Char) :
    (fieldsFrom cur s).length =
      tokenStarts (decide (cur = [])) s + (if cur = [] then 0 else 1) := by
  induction s generalizing cur with
  | nil => by_cases h : cur = [] <;> simp [fieldsFrom, tokenStarts, h]
  | cons c cs ih =>
    by_cases hc : unicode.IsSpace c = true
    · by_cases h : cur = []
      · simp [fieldsFrom, tokenStarts, hc, h, ih]
      · simp [fieldsFrom, tokenStarts, hc, h, ih]
    · by_cases h : cur = []
      · simp [fieldsFrom, tokenStarts, hc, h, ih]
        omega
      · simp [fieldsFrom, tokenStarts, hc, h, ih]

theorem Fields_length (s : String) : (Fields s.data).length = tokenCount s := by
  simp [Fields, tokenCount, fieldsFrom_length]

theorem fieldsFrom_eq (s : List Char) (cur : List Char) :
    fieldsFrom cur s =
      if cur ++ s.takeWhile (fun c => !unicode.IsSpace c) = [] then
        Fields (s.dropWhile (fun c => !unicode.IsSpace c))
      else
        (cur ++ s.takeWhile (fun c => !unicode.IsSpace c)) ::
          Fields (s.dropWhile (fun c => !unicode.IsSpace c)) := by
  induction s generalizing cur with
  | nil => by_cases h : cur = [] <;> simp [fieldsFrom, Fields, h]
  | cons c cs ih =>
    by_cases hc : unicode.IsSpace c = true
    · by_cases h : cur = [] <;> simp [fieldsFrom, Fields, hc, h]
    · rw [fieldsFrom, if_neg hc, ih]
      simp [hc]

theorem Fields_dropWhile_space (s : List Char) :
    Fields s = Fields (s.dropWhile unicode.IsSpace) := by
  induction s with
  | nil => rfl
  | cons c cs ih =>
    by_cases hc : unicode.IsSpace c = true
    · rw [List.dropWhile_cons_of_pos hc, ← ih]
      simp [Fields, fieldsFrom, hc]
    · rw [List.dropWhile_cons_of_neg hc]

theorem takeWhile_not_space_ne_nil (s : List Char) (h : s.dropWhile unicode.IsSpace ≠ []) :
    (s.dropWhile unicode.IsSpace).takeWhile (fun c => !unicode.IsSpace c) ≠ [] := by
  induction s with
  | nil => simp at h
  | cons c cs ih =>
    by_cases hc : unicode.IsSpace c = true
    · rw [List.dropWhile_cons_of_pos hc] at h ⊢
      exact ih h
    · rw [List.dropWhile_cons_of_neg hc]
      simp [hc]

theorem Fields_eq (s : String) :
    Fields s.data =
      if s.data.dropWhile unicode.IsSpace = [] then [] else levelTag s :: Fields (afterTag s) := by
  rw [Fields_dropWhile_space]
  by_cases h : s.data.dropWhile unicode.IsSpace = []
  · simp [h, Fields, fieldsFrom]
  · rw [if_neg h]
    conv_lhs => rw [Fields, fieldsFrom_eq]
    have := takeWhile_not_space_ne_nil s.data h
    simp [levelTag, afterTag, this]

theorem Fields_headD (s : String) : (Fields s.data).headD [] = levelTag s := by
  rw [Fields_eq]
  by_cases h : s.data.dropWhile unicode.IsSpace = []
  · simp [h, levelTag]
  · simp [h]

theorem Fields_drop_one (s : String) : (Fields s.data).drop 1 = Fields (afterTag s) := by
  rw [Fields_eq]
  by_cases h : s.data.dropWhile unicode.IsSpace = []
  · simp [h, afterTag, Fields, fieldsFrom]
  · simp [h]


theorem fieldsFrom_no_space (s : List Char) (cur : List Char)
    (hcur : ∀ c ∈ cur, unicode.IsSpace c = false) :
    ∀ tok ∈ fieldsFrom cur s, ∀ c ∈ tok, unicode.IsSpace c = false := by
  induction s generalizing cur with
  | nil =>
    intro tok htok
    by_cases h : cur = []
    · simp [fieldsFrom, h] at htok
    · simp [fieldsFrom, h] at htok
      subst htok
      exact hcur
  | cons c cs ih =>
    intro tok htok
    by_cases hc : unicode.IsSpace c = true
    · by_cases h : cur = []
      · simp [fieldsFrom, hc, h] at htok
        exact ih [] (by simp) tok htok
      · simp [fieldsFrom, hc, h] at htok
        rcases htok with htok | htok
        · subst htok
          exact hcur
        · exact ih [] (by simp) tok htok
    · simp [fieldsFrom, hc] at htok
      refine ih (cur ++ [c]) ?_ tok htok
      intro d hd
      simp at hd
      rcases hd with hd | hd
      · exact hcur d hd
      · subst hd
        simpa using hc

theorem Join_space_only (toks : List (List Char))
    (h : ∀ tok ∈ toks, ∀ c ∈ tok, unicode.IsSpace c = false) :
    ∀ c ∈ Join toks [' '], unicode.IsSpace c = true → c = ' ' := by
  induction toks with
  | nil => simp [Join]
  | cons a rest ih =>
    cases rest with
    | nil =>
      intro c hc hs
      simp [Join] at hc
      have := h a (by simp) c hc
      simp [this] at hs
    | cons b rest =>
      intro c hc hs
      simp only [Join, List.mem_append, List.mem_singleton] at hc
      rcases hc with (hc | hc) | hc
      · have := h a (by simp) c hc
        simp [this] at hs
      · exact hc
      · exact ih (fun tok ht => h tok (List.mem_cons_of_mem _ ht)) c hc hs

theorem dropWhile_congr_mem (l : List Char) (p q : Char → Bool) (h : ∀ c ∈ l, p c = q c) :
    l.dropWhile p = l.dropWhile q := by
  induction l with
  | nil => rfl
  | cons a l ih =>
    have ha : p a = q a := h a (by simp)
    have hl : ∀ c ∈ l, p c = q c := fun c hc => h c (List.mem_cons_of_mem _ hc)
    simp only [List.dropWhile_cons, ha, ih hl]

theorem isDigit_eq_range (c : Char) : c.isDigit = decide (48 ≤ c.toNat ∧ c.toNat ≤ 57) := by
  simp only [Char.isDigit, Char.toNat, ge_iff_le, UInt32.le_def, Bool.decide_and]
  rfl

theorem cutset_digits (c : Char) (hsp : c ≠ ' ') :
    "0123456789 ".data.contains c = c.isDigit := by
  rw [isDigit_eq_range]
  have hc : c = Char.ofNat c.toNat := (Char.ofNat_toNat c).symm
  by_cases hd : 48 ≤ c.toNat ∧ c.toNat ≤ 57
  · obtain ⟨h1, h2⟩ := hd
    generalize c.toNat = n at hc h1 h2
    subst hc
    interval_cases n <;> decide
  · have hne : ∀ d : Char, (48 ≤ d.toNat ∧ d.toNat ≤ 57) → c ≠ d := by
      intro d hdd hcd
      subst hcd
      exact hd hdd
    have h0 := hne '0' (by decide)
    have h1 := hne '1' (by decide)
    have h2 := hne '2' (by decide)
    have h3 := hne '3' (by decide)
    have h4 := hne '4' (by decide)
    have h5 := hne '5' (by decide)
    have h6 := hne '6' (by decide)
    have h7 := hne '7' (by decide)
    have h8 := hne '8' (by decide)
    have h9 := hne '9' (by decide)
    have hmem : c ∉ "0123456789 ".data := by
      simp [h0, h1, h2, h3, h4, h5, h6, h7, h8, h9, hsp]
    have hcont : "0123456789 ".data.contains c = false := by
      rw [← Bool.not_eq_true]
      intro hm
      exact hmem (List.elem_iff.mp hm)
    rw [hcont]
    simp [hd]

theorem cutset_contains (c : Char) (h : unicode.IsSpace c = true → c = ' ') :
    "0123456789 ".data.contains c = (c.isDigit || unicode.IsSpace c) := by
  by_cases hsp : c = ' '
  · subst hsp
    decide
  · have hns : unicode.IsSpace c = false := by
      cases hs : unicode.IsSpace c with
      | false => rfl
      | true => exact absurd (h hs) hsp
    rw [hns, Bool.or_false]
    exact cutset_digits c hsp

theorem message_eq (s : String) :
    TrimLeft (Join ((Fields s.data).drop 1) " ".data) "0123456789 ".data =
      stripIdPrefix (singleSpaced (afterTag s)) := by
  rw [Fields_drop_one]
  unfold TrimLeft stripIdPrefix singleSpaced
  apply dropWhile_congr_mem
  intro c hc
  apply cutset_contains
  exact Join_space_only _ (fieldsFrom_no_space _ [] (by simp)) c hc

theorem Output_two_tokens (n : nsqZapLogger) (d : Int) (s : String) (h : 2 ≤ tokenCount s) :
    ∃ lvl : ZapLevel,
      n.Output d s =
          (⟨⟨n.logger.entries ++
            [⟨lvl, String.mk (stripIdPrefix (singleSpaced (afterTag s))), []⟩]⟩⟩, none) ∧
        (levelTag s = "DBG".data → lvl = .DebugLevel) ∧
        (levelTag s = "INF".data → lvl = .InfoLevel) ∧
        (levelTag s = "WRN".data → lvl = .WarnLevel) ∧
        (levelTag s = "ERR".data → lvl = .ErrorLevel) ∧
        (levelTag s ≠ "DBG".data → levelTag s ≠ "INF".data → levelTag s ≠ "WRN".data →
          levelTag s ≠ "ERR".data → lvl = .InfoLevel) := by
  have hlen : ¬ (Fields s.data).length < 2 := by
    rw [Fields_length]
    omega
  unfold nsqZapLogger.Output
  simp only [hlen, if_false, Fields_headD, message_eq]
  by_cases h1 : levelTag s = "DBG".data
  · refine ⟨.DebugLevel, ?_⟩
    simp [h1, Logger.Debug]
    exact congrArg String.mk (by simpa using message_eq s)
  · by_cases h2 : levelTag s = "INF".data
    · refine ⟨.InfoLevel, ?_⟩
      simp [h2, Logger.Info]
      exact congrArg String.mk (by simpa using message_eq s)
    · by_cases h3 : levelTag s = "WRN".data
      · refine ⟨.WarnLevel, ?_⟩
        simp [h3, Logger.Warn]
        exact congrArg String.mk (by simpa using message_eq s)
      · by_cases h4 : levelTag s = "ERR".data
        · refine ⟨.ErrorLevel, ?_⟩
          simp [h4, Logger.Error]
          exact congrArg String.mk (by simpa using message_eq s)
        · refine ⟨.InfoLevel, ?_⟩
          simp [h1, h2, h3, h4, Logger.Info]
          exact congrArg String.mk (by simpa using message_eq s)

theorem tokenStarts_all_space (b : Bool) (l : List Char)
    (h : ∀ c ∈ l, unicode.IsSpace c = true) : tokenStarts b l = 0 := by
  induction l generalizing b with
  | nil => rfl
  | cons c cs ih =>
    have hc : unicode.IsSpace c = true := h c (by simp)
    simp [tokenStarts, hc, ih true (fun d hd => h d (List.mem_cons_of_mem _ hd))]

theorem tokenStarts_in_word (word post : List Char)
    (hw : ∀ c ∈ word, unicode.IsSpace c = false)
    (hp : ∀ c ∈ post, unicode.IsSpace c = true) : tokenStarts false (word ++ post) = 0 := by
  induction word with
  | nil => simpa using tokenStarts_all_space false post hp
  | cons c cs ih =>
    have hc : unicode.IsSpace c = false := hw c (by simp)
    simp [tokenStarts, hc, ih (fun d hd => hw d (List.mem_cons_of_mem _ hd))]

theorem tokenStarts_skip_spaces (pre rest : List Char)
    (h : ∀ c ∈ pre, unicode.IsSpace c = true) :
    tokenStarts true (pre ++ rest) = tokenStarts true rest := by
  induction pre with
  | nil => rfl
  | cons c cs ih =>
    have hc : unicode.IsSpace c = true := h c (by simp)
    simp [tokenStarts, hc, ih (fun d hd => h d (List.mem_cons_of_mem _ hd))]

/-- A line made of one word, with any white space before and after it, has
fewer than two tokens (the word may be empty: a line of white space only). -/
theorem tokenCount_single_word (pre word post : List Char)
    (hpre : ∀ c ∈ pre, unicode.IsSpace c = true)
    (hw : ∀ c ∈ word, unicode.IsSpace c = false)
    (hpost : ∀ c ∈ post, unicode.IsSpace c = true) :
    tokenCount (String.mk (pre ++ (word ++ post))) < 2 := by
  unfold tokenCount
  rw [tokenStarts_skip_spaces pre _ hpre]
  cases word with
  | nil => simp [tokenStarts_all_space true post hpost]
  | cons c cs =>
    have hc : unicode.IsSpace c = false := hw c (by simp)
    have := tokenStarts_in_word cs post (fun d hd => hw d (List.mem_cons_of_mem _ hd)) hpost
    simp [tokenStarts, hc, this]

/-- C5: for a line with fewer than two white-space-separated tokens `Output`
returns an error (it is a total function, there is no panic) and hands no entry
to the logger. -/
theorem output_malformed_line (n : nsqZapLogger) (d : Int) (s : String)
    (h : tokenCount s < 2) :
    n.Output d s = (n, some ("failed to parse NSQ log line: " ++ s)) := by
  have hlen : (Fields s.data).length < 2 := by
    rw [Fields_length]
    exact h
  unfold nsqZapLogger.Output
  simp only [hlen, if_true]

theorem output_malformed_line_witness :
    nsqZapLogger.Output ⟨⟨[]⟩⟩ 0 "" = (⟨⟨[]⟩⟩, some "failed to parse NSQ log line: ") ∧
      nsqZapLogger.Output ⟨⟨[]⟩⟩ 0 " \t " =
        (⟨⟨[]⟩⟩, some "failed to parse NSQ log line:  \t ") ∧
      nsqZapLogger.Output ⟨⟨[]⟩⟩ 0 "  single " =
        (⟨⟨[]⟩⟩, some "failed to parse NSQ log line:   single ") :=
  ⟨output_malformed_line ⟨⟨[]⟩⟩ 0 "" (by decide),
    output_malformed_line ⟨⟨[]⟩⟩ 0 " \t " (by decide),
    output_malformed_line ⟨⟨[]⟩⟩ 0 "  single " (by decide)⟩

/-- C6 as it is written fails: the line "INF a  b" has three tokens and `Output`
emits one entry with message "a b", while the remainder of the line after the
level tag, with leading digits and white space stripped, is "a  b". -/
theorem output_message_not_verbatim :
    2 ≤ tokenCount "INF a  b" ∧
      nsqZapLogger.Output ⟨⟨[]⟩⟩ 0 "INF a  b" = (⟨⟨[⟨.InfoLevel, "a b", []⟩]⟩⟩, none) ∧
      String.mk (stripIdPrefix (afterTag "INF a  b")) = "a  b" ∧
      (nsqZapLogger.Output ⟨⟨[]⟩⟩ 0 "INF a  b").1.logger.entries.map LogEntry.msg ≠
        [String.mk (stripIdPrefix (afterTag "INF a  b"))] := by
  decide

/-- The line "ERR 1 404 not found": `strings.TrimLeft` removes every leading
digit and space of the joined remainder, not only the connection id, so the
message handed to the logger is "not found". -/
theorem output_strips_every_leading_number :
    nsqZapLogger.Output ⟨⟨[]⟩⟩ 2 "ERR 1 404 not found" =
      (⟨⟨[⟨.ErrorLevel, "not found", []⟩]⟩⟩, none) := by
  decide

/-- C6, amended: for a line with at least two white-space-separated tokens
`Output` returns `nil` and hands exactly one entry to the logger, whose message
is the remainder of the line after the level tag, its words put back together
with single spaces, with any leading run of digits and white space stripped. -/
theorem output_message_single_spaced (n : nsqZapLogger) (d : Int) (s : String)
    (h : 2 ≤ tokenCount s) :
    ∃ lvl : ZapLevel,
      n.Output d s =
        (⟨⟨n.logger.entries ++
          [⟨lvl, String.mk (stripIdPrefix (singleSpaced (afterTag s))), []⟩]⟩⟩, none) := by
  obtain ⟨lvl, hout, _⟩ := Output_two_tokens n d s h
  exact ⟨lvl, hout⟩

theorem output_message_single_spaced_witness :
    (∃ lvl : ZapLevel,
      nsqZapLogger.Output ⟨⟨[]⟩⟩ 0 "INF 123 connected to broker" =
        (⟨⟨[] ++ [⟨lvl, String.mk (stripIdPrefix (singleSpaced
          (afterTag "INF 123 connected to broker"))), []⟩]⟩⟩, none)) ∧
      String.mk (stripIdPrefix (singleSpaced (afterTag "INF 123 connected to broker"))) =
        "connected to broker" :=
  ⟨output_message_single_spaced ⟨⟨[]⟩⟩ 0 "INF 123 connected to broker" (by decide),
    by decide⟩

/-- C7: for a line with at least two white-space-separated tokens `Output` hands
exactly one entry to the logger and its severity depends on the first token
only: DBG gives debug, INF info, WRN warn, ERR error, and any other first token
gives info. -/
theorem output_entry_level (n : nsqZapLogger) (d : Int) (s : String)
    (h : 2 ≤ tokenCount s) :
    ∃ (lvl : ZapLevel) (msg : String),
      (n.Output d s).1.logger.entries = n.logger.entries ++ [⟨lvl, msg, []⟩] ∧
        (n.Output d s).2 = none ∧
        (levelTag s = "DBG".data → lvl = .DebugLevel) ∧
        (levelTag s = "INF".data → lvl = .InfoLevel) ∧
        (levelTag s = "WRN".data → lvl = .WarnLevel) ∧
        (levelTag s = "ERR".data → lvl = .ErrorLevel) ∧
        (levelTag s ≠ "DBG".data → levelTag s ≠ "INF".data → levelTag s ≠ "WRN".data →
          levelTag s ≠ "ERR".data → lvl = .InfoLevel) := by
  obtain ⟨lvl, hout, hmap⟩ := Output_two_tokens n d s h
  exact ⟨lvl, _, by rw [hout], by rw [hout], hmap⟩

theorem output_entry_level_witness :
    (∃ msg : String,
      (nsqZapLogger.Output ⟨⟨[]⟩⟩ 0 "ERR 1 boom").1.logger.entries =
        [⟨.ErrorLevel, msg, []⟩]) ∧
      ∃ msg : String,
        (nsqZapLogger.Output ⟨⟨[]⟩⟩ 0 "LOG 1 boom").1.logger.entries =
          [⟨.InfoLevel, msg, []⟩] := by
  constructor
  · obtain ⟨lvl, msg, he, _, _, _, _, h4, _⟩ :=
      output_entry_level ⟨⟨[]⟩⟩ 0 "ERR 1 boom" (by decide)
    have hl : lvl = .ErrorLevel := h4 (by decide)
    subst hl
    exact ⟨msg, he⟩
  · obtain ⟨lvl, msg, he, _, _, _, _, _, h5⟩ :=
      output_entry_level ⟨⟨[]⟩⟩ 0 "LOG 1 boom" (by decide)
    have hl : lvl = .InfoLevel := h5 (by decide) (by decide) (by decide) (by decide)
    subst hl
    exact ⟨msg, he⟩

/-! ## The broker's verbosity threshold -/

theorem not_representable_of_above_error (h : ZapLevel) (hh : 2 < h.toInt) :
    ¬ Representable h := by
  rintro ⟨b, hb⟩
  subst hb
  cases b <;> simp [NsqLogLevel.asZap, ZapLevel.toInt] at hh

/-- C8 as it is written fails: dpanic is not a level of the broker's scheme, and
the level it is mapped to, error, is less severe than dpanic, so it is not the
nearest more-severe supported level. -/
theorem dpanic_maps_below :
    ¬ Representable .DPanicLevel ∧
      nsqLogLevel .DPanicLevel = .LogLevelError ∧
      ¬ NearestMoreSevere .DPanicLevel (nsqLogLevel .DPanicLevel) := by
  refine ⟨not_representable_of_above_error _ (by decide), rfl, ?_⟩
  rintro ⟨h, _⟩
  exact absurd h (by decide)

/-- C8, amended: the threshold is a total function of the host level; a host
level the broker's scheme represents directly (debug, info, warn, error) is
mapped to the level of the same name, and every other host level (dpanic, panic,
fatal) is mapped to error, the most severe broker level: it is the supported
level nearest to the host level and it is less severe than the host level. -/
theorem nsqLogLevel_mapping (h : ZapLevel) :
    (Representable h → (nsqLogLevel h).asZap = h) ∧
      (¬ Representable h →
        nsqLogLevel h = .LogLevelError ∧
          (nsqLogLevel h).asZap.toInt < h.toInt ∧
          ∀ b : NsqLogLevel,
            b.asZap.toInt ≤ (nsqLogLevel h).asZap.toInt ∧
              levelDistance h (nsqLogLevel h) ≤ levelDistance h b) := by
  cases h
  case DebugLevel => exact ⟨fun _ => rfl, fun hn => absurd ⟨.LogLevelDebug, rfl⟩ hn⟩
  case InfoLevel => exact ⟨fun _ => rfl, fun hn => absurd ⟨.LogLevelInfo, rfl⟩ hn⟩
  case WarnLevel => exact ⟨fun _ => rfl, fun hn => absurd ⟨.LogLevelWarning, rfl⟩ hn⟩
  case ErrorLevel => exact ⟨fun _ => rfl, fun hn => absurd ⟨.LogLevelError, rfl⟩ hn⟩
  case DPanicLevel =>
    exact ⟨fun hr => absurd hr (not_representable_of_above_error _ (by decide)),
      fun _ => ⟨rfl, by decide, fun b => by cases b <;> decide⟩⟩
  case PanicLevel =>
    exact ⟨fun hr => absurd hr (not_representable_of_above_error _ (by decide)),
      fun _ => ⟨rfl, by decide, fun b => by cases b <;> decide⟩⟩
  case FatalLevel =>
    exact ⟨fun hr => absurd hr (not_representable_of_above_error _ (by decide)),
      fun _ => ⟨rfl, by decide, fun b => by cases b <;> decide⟩⟩

theorem nsqLogLevel_mapping_witness :
    (nsqLogLevel .WarnLevel).asZap = .WarnLevel ∧ nsqLogLevel .FatalLevel = .LogLevelError :=
  ⟨(nsqLogLevel_mapping .WarnLevel).1 ⟨.LogLevelWarning, rfl⟩,
    ((nsqLogLevel_mapping .FatalLevel).2
      (not_representable_of_above_error _ (by decide))).1⟩

/-! ## The shutdown sequence -/

/-- C10: in the run of `main` from the signal on, `producer.Stop` is only ever
invoked after `app.Shutdown` has returned `nil`; the state is Running before the
signal, Draining right after it and never Running again; Stopped is reached only
when the shutdown returned `nil` and the producer was stopped, and it is reached
then; when the shutdown returns an error the run is the signal, the failed
shutdown, the fatal log entry and exit code 1, without `producer.Stop` and
without reaching Stopped. -/
theorem shutdown_order (err : error) :
    (∀ i : Nat, (mainShutdown err)[i]? = some Event.producerStop →
        ∃ j : Nat, j < i ∧ (mainShutdown err)[j]? = some (Event.appShutdownReturned none)) ∧
      phaseAfter ((mainShutdown err).take 0) = .Running ∧
      phaseAfter ((mainShutdown err).take 1) = .Draining ∧
      (∀ k : Nat, 1 ≤ k → phaseAfter ((mainShutdown err).take k) ≠ .Running) ∧
      (∀ k : Nat, phaseAfter ((mainShutdown err).take k) = .Stopped →
        err = none ∧ Event.appShutdownReturned none ∈ (mainShutdown err).take k ∧
          Event.producerStop ∈ (mainShutdown err).take k) ∧
      (err = none → phaseAfter (mainShutdown err) = .Stopped) ∧
      ∀ e : String, err = some e →
        mainShutdown err =
            [Event.signalReceived, Event.appShutdownReturned (some e),
              Event.log ⟨.FatalLevel, "Server forced to shutdown", [.Error e]⟩,
              Event.osExit 1] ∧
          Event.producerStop ∉ mainShutdown err ∧
          phaseAfter (mainShutdown err) = .Draining := by
  cases err with
  | none =>
    refine ⟨?_, rfl, rfl, ?_, ?_, fun _ => rfl, ?_⟩
    · intro i hi
      refine ⟨1, ?_, rfl⟩
      rcases i with _ | _ | i
      · simp [mainShutdown] at hi
      · simp [mainShutdown] at hi
      · omega
    · intro k hk
      rcases k with _ | _ | _ | _ | _ | k <;>
        simp [mainShutdown, phaseAfter, Phase.next] at hk ⊢
    · intro k hk
      rcases k with _ | _ | _ | _ | k <;>
        simp [mainShutdown, phaseAfter, Phase.next] at hk ⊢
    · intro e he
      cases he
  | some e0 =>
    refine ⟨?_, rfl, rfl, ?_, ?_, ?_, ?_⟩
    · intro i hi
      rcases i with _ | _ | _ | _ | i <;> simp [mainShutdown] at hi
    · intro k hk
      rcases k with _ | _ | _ | _ | k <;>
        simp [mainShutdown, phaseAfter, Phase.next] at hk ⊢
    · intro k hk
      rcases k with _ | _ | _ | _ | k <;>
        simp [mainShutdown, phaseAfter, Phase.next] at hk
    · intro he
      cases he
    · intro e he
      cases he
      refine ⟨rfl, ?_, rfl⟩
      simp [mainShutdown]

theorem shutdown_order_witness :
    phaseAfter (mainShutdown none) = .Stopped ∧
      (∃ j : Nat, j < 3 ∧ (mainShutdown none)[j]? = some (Event.appShutdownReturned none)) ∧
      Event.producerStop ∉ mainShutdown (some "context deadline exceeded") ∧
      phaseAfter (mainShutdown (some "context deadline exceeded")) = .Draining :=
  ⟨(shutdown_order none).2.2.2.2.2.1 rfl,
    (shutdown_order none).1 3 rfl,
    ((shutdown_order (some "context deadline exceeded")).2.2.2.2.2.2
      "context deadline exceeded" rfl).2.1,
    ((shutdown_order (some "context deadline exceeded")).2.2.2.2.2.2
      "context deadline exceeded" rfl).2.2⟩

end HttpToNsq
